import Mathlib

/-!
# Verification of the `qats` signal module

Shallow embedding of `src/qats/signal.py` over exact rational arithmetic.
Signals are `List ℚ` (1-D numpy arrays of float samples); machine floats are
modelled by exact rationals, with explicit result constructors for the
non-finite float outcomes (NaN / inf) produced by division by zero, and
`Except` for the exceptions (`ValueError` / `TypeError` / `IndexError`)
the Python code can raise.
-/

namespace QatsSignal

/-- `np.diff` on an integer array: `d[i] = a[i+1] - a[i]`. -/
def diffInt (l : List ℤ) : List ℤ := List.zipWith (fun a b => a - b) l.tail l

/-- `np.diff` on a rational array: `d[i] = a[i+1] - a[i]`. -/
def diffQ (l : List ℚ) : List ℚ := List.zipWith (fun a b => a - b) l.tail l

/-- `np.mean(x)`: sum divided by length (for the empty array, float NaN;
here the total rational division yields `0`, which no claim relies on). -/
def listMean (x : List ℚ) : ℚ := x.sum / x.length

/-- `x_ = x - np.mean(x)` (signal.py lines 500, 564). -/
def demean (x : List ℚ) : List ℚ := x.map (fun v => v - listMean x)

/-- Crossing direction indicator: `1` for up-crossings, `-1` for
down-crossings (signal.py lines 502-507, 566-571). -/
def indicatorOf (up : Bool) : ℤ := if up then 1 else -1

/-- `crossings = 1 * (x_ > 0.)` for up, `1 * (x_ < 0.)` for down
(signal.py lines 503, 506, 567, 570). -/
def crossBin (x : List ℚ) (up : Bool) : List ℤ :=
  (demean x).map (fun v => if up then (if 0 < v then 1 else 0) else (if v < 0 then 1 else 0))

/-- `crossings = np.diff(crossings)` (signal.py lines 509, 573). -/
def crossDiff (x : List ℚ) (up : Bool) : List ℤ := diffInt (crossBin x up)

/-- `crossings[crossings != indicator] = 0`: zero out the crossings of the
opposite direction (signal.py lines 510, 574). -/
def crossKept (x : List ℚ) (up : Bool) : List ℤ :=
  (crossDiff x up).map (fun d => if d = indicatorOf up then d else 0)

/-- `np.sum(crossings)` after zeroing, as computed at signal.py line 575:
the SIGNED sum (equal to the crossing count for up, and to MINUS the
crossing count for down). -/
def signedCrossingSum (x : List ℚ) (up : Bool) : ℤ := (crossKept x up).sum

/-- The number of mean-level crossings of the requested direction: the
number of positions where the differenced indicator equals `indicator`. -/
def crossCount (x : List ℚ) (up : Bool) : ℕ :=
  (crossDiff x up).countP (fun d => d == indicatorOf up)

/-- `np.where(crossings == indicator)[0] + 1` (signal.py lines 511, 584). -/
def crossingIndices (x : List ℚ) (up : Bool) : List ℕ :=
  ((List.range (crossKept x up).length).filter
    (fun i => (crossKept x up).getD i 0 == indicatorOf up)).map (fun i => i + 1)

/-- Outcome of `average_frequency`: a finite float value, a non-finite
float (NaN or inf, from a float division by zero), or a Python
`IndexError` from `i[-1]` / `i[0]` / `t[...]` on an empty or too-short
array. -/
inductive AvgFreqResult
  | ok (v : ℚ)
  | nonfinite
  | indexError
deriving DecidableEq, Repr

/-- `average_frequency(t, x, up)` (signal.py lines 478-513).
`d = (t[i[-1]] - t[i[0]]) / (np.abs(np.sum(crossings)) - 1)`; the function
returns `1./d`.  With no crossing, `i` is empty and `i[-1]` raises
`IndexError`; with exactly one crossing the division is `0.0/0` giving
float NaN (`nonfinite`), and `1./NaN` is NaN; a zero duration with two or
more crossings gives `1./0.0 = inf` (`nonfinite`). -/
def average_frequency (t x : List ℚ) (up : Bool) : AvgFreqResult :=
  let i := crossingIndices x up
  match i.head?, i.getLast? with
  | some i0, some iN =>
    match t.get? i0, t.get? iN with
    | some t0, some tN =>
      let s : ℤ := |signedCrossingSum x up|
      if s - 1 = 0 then AvgFreqResult.nonfinite
      else if (tN - t0) / ((s : ℚ) - 1) = 0 then AvgFreqResult.nonfinite
      else AvgFreqResult.ok (1 / ((tN - t0) / ((s : ℚ) - 1)))
    | _, _ => AvgFreqResult.indexError
  | _, _ => AvgFreqResult.indexError

/-- C1: `average_frequency` never raises an `InsufficientData` error when
fewer than 2 crossings of the requested direction exist: with exactly one
up-crossing it divides `0.0` by `0` and returns float NaN, and with zero
crossings it raises `IndexError` on the empty index array.  The signal
`[-1, 1, -1, -1]` with times `[0, 1, 2, 3]` has exactly one up-crossing
and yields NaN; the constant signal `[1, 1, 1]` has no up-crossing and
raises `IndexError`. -/
theorem average_frequency_no_insufficient_data_error :
    average_frequency [0, 1, 2, 3] [-1, 1, -1, -1] true = AvgFreqResult.nonfinite ∧
    average_frequency [0, 1, 2] [1, 1, 1] true = AvgFreqResult.indexError := by
  constructor <;>
    norm_num [average_frequency, crossingIndices, crossKept, crossDiff, crossBin,
      demean, listMean, indicatorOf, signedCrossingSum, diffInt, List.range_succ]

/-! ## `find_maxima` (signal.py lines 516-632)

The Python function keeps two parallel arrays `maxima` and
`maxima_indices` that are always selected, filtered and permuted
together; the embedding models them as one list of `(value, index)`
pairs.  `retind` only controls whether the index array is also returned,
so the embedding always returns the pairs (the `retind=False` view is the
first projection). -/

/-- The dynamic type of the Python `threshold` argument: a float value,
or a value of any other type (which `isinstance(threshold, float)`
rejects). -/
inductive PyThresh
  | pyFloat (q : ℚ)
  | pyOther
deriving DecidableEq, Repr

/-- The error `find_maxima` can raise: `TypeError` for a non-float
threshold (signal.py line 620). -/
inductive FMErr
  | typeError
deriving DecidableEq, Repr

/-- `x[start:stop].max()` (signal.py line 600): the largest sample in the
half-open window.  The crossing indices are strictly increasing, so the
slice is never empty when called; the `[]` branch is unreachable. -/
def segMaxVal (x : List ℚ) (start stop : ℕ) : ℚ :=
  match (x.drop start).take (stop - start) with
  | [] => 0
  | h :: t => t.foldl max h

/-- `start + np.argmax(x[start:stop])` (signal.py line 601): `np.argmax`
returns the FIRST position attaining the maximum, i.e. the first position
whose value is `≥` the maximum of the slice. -/
def segArgmax (x : List ℚ) (start stop : ℕ) : ℕ :=
  start + ((x.drop start).take (stop - start)).findIdx (fun v => segMaxVal x start stop ≤ v)

/-- The maxima pairs before threshold filtering and sorting (signal.py
lines 584-611); only called after the `n_crossings < 2` early return.

Global mode: `maxima = np.zeros(n_crossings)` is preallocated with
`n_crossings` slots, but the loop fills only one slot per consecutive
pair of crossing indices; when the last crossing falls on the final
sample, no index is appended and the last slot keeps its fill value
`(0.0, 0)` — the embedding reproduces this with `List.replicate` padding.

Local mode: `ds = 1*(np.diff(x) < 0)` extended by a trailing `0`,
`d2s = np.diff(ds)` prefixed by a leading `0`; maxima sit where
`d2s == 1`. -/
def rawMaxima (x : List ℚ) (isLocal up : Bool) : List (ℚ × ℕ) :=
  if !isLocal then
    let ci0 := crossingIndices x up
    let ci := match ci0.getLast? with
      | some l => if l < x.length - 1 then ci0 ++ [x.length - 1] else ci0
      | none => ci0
    let segs := (ci.zip ci.tail).map (fun p => (segMaxVal x p.1 p.2, segArgmax x p.1 p.2))
    segs ++ List.replicate ((signedCrossingSum x up).toNat - segs.length) ((0 : ℚ), (0 : ℕ))
  else
    let ds := ((diffQ x).map fun d => if d < 0 then (1 : ℤ) else 0) ++ [0]
    let d2s := (0 : ℤ) :: diffInt ds
    ((List.range d2s.length).filter (fun i => d2s.getD i 0 == 1)).map (fun i => (x.getD i 0, i))

/-- Ordered insert used by the ascending value sort. -/
def insertByVal (p : ℚ × ℕ) : List (ℚ × ℕ) → List (ℚ × ℕ)
  | [] => [p]
  | q :: t => if p.1 ≤ q.1 then p :: q :: t else q :: insertByVal p t

/-- `ascending = np.argsort(maxima); maxima[ascending], indices[ascending]`
(signal.py lines 624-627): sort the pairs ascending by value (the order
among equal values is not specified by `np.argsort`; any sort is a
faithful model on value-distinct data). -/
def sortPairs : List (ℚ × ℕ) → List (ℚ × ℕ)
  | [] => []
  | p :: t => insertByVal p (sortPairs t)

/-- `find_maxima(x, local, threshold, up, retind)` (signal.py lines
516-632): early empty return when the SIGNED crossing sum is `< 2`
(line 578); otherwise maxima extraction, then threshold filtering
(`maxima >= threshold` kept, `TypeError` for a non-float threshold,
lines 613-620), then the ascending sort. -/
def find_maxima (x : List ℚ) (isLocal : Bool) (threshold : Option PyThresh) (up : Bool) :
    Except FMErr (List (ℚ × ℕ)) :=
  if signedCrossingSum x up < 2 then Except.ok []
  else
    match threshold with
    | none => Except.ok (sortPairs (rawMaxima x isLocal up))
    | some (PyThresh.pyFloat q) =>
        Except.ok (sortPairs ((rawMaxima x isLocal up).filter (fun p => decide (q ≤ p.1))))
    | some PyThresh.pyOther => Except.error FMErr.typeError

/-- Summing a list after zeroing all entries different from `i` gives `i`
times the number of entries equal to `i`. -/
theorem sum_map_keep (l : List ℤ) (i : ℤ) :
    (l.map fun d => if d = i then d else 0).sum = i * (l.countP (fun d => d == i) : ℤ) := by
  induction l with
  | nil => simp
  | cons a t ih =>
    by_cases h : a = i
    · simp [List.countP_cons, h, ih]; ring
    · simp [List.countP_cons, h, ih]

/-- The signed crossing sum of line 575 equals the direction indicator
times the genuine crossing count. -/
theorem signedCrossingSum_eq (x : List ℚ) (up : Bool) :
    signedCrossingSum x up = indicatorOf up * (crossCount x up : ℤ) := by
  rw [signedCrossingSum, crossKept, crossCount, sum_map_keep]

/-- C2: with fewer than 2 mean-level crossings of the requested direction,
`find_maxima` returns the empty result (hence empty maxima and empty index
arrays for either value of `retind`) and raises no error — for any mode
and any threshold argument, in contrast with `average_frequency`. -/
theorem find_maxima_few_crossings_empty (x : List ℚ) (isLocal : Bool)
    (thr : Option PyThresh) (up : Bool) (h : crossCount x up < 2) :
    find_maxima x isLocal thr up = Except.ok [] := by
  have hs : signedCrossingSum x up < 2 := by
    rw [signedCrossingSum_eq]
    cases up with
    | false =>
      have : (0 : ℤ) ≤ (crossCount x false : ℤ) := Int.ofNat_nonneg _
      simp only [indicatorOf, if_neg Bool.false_ne_true]
      omega
    | true =>
      have : (crossCount x true : ℤ) < 2 := by exact_mod_cast h
      simpa [indicatorOf] using this
  simp [find_maxima, hs]

/-- C2 witness: the constant signal `[1, 1, 1]` has no up-crossing. -/
theorem find_maxima_few_crossings_empty_witness :
    crossCount [1, 1, 1] true < 2 ∧
      find_maxima [1, 1, 1] false none true = Except.ok [] :=
  ⟨by norm_num [crossCount, crossDiff, crossBin, demean, listMean, diffInt, indicatorOf],
   find_maxima_few_crossings_empty [1, 1, 1] false none true
     (by norm_num [crossCount, crossDiff, crossBin, demean, listMean, diffInt, indicatorOf])⟩

/-- C3: the returned pairs are NOT always genuine sample extrema.  For
`x = [-1, 1, -1, 1]` (mean `0`, up-crossings at indices 1 and 3, the last
one on the final sample so no boundary index is appended), the global-mode
loop fills only one of the two preallocated slots and the call returns the
fill pair `(0.0, 0)`: its value `0` differs from `x[0] = -1`, so the entry
is a filler, not a sample extremum. -/
theorem find_maxima_filler_entry :
    find_maxima [-1, 1, -1, 1] false none true =
      Except.ok [((0 : ℚ), (0 : ℕ)), (1, 1)] ∧
    ([-1, 1, -1, 1] : List ℚ).getD 0 0 ≠ 0 := by
  constructor
  · norm_num [find_maxima, signedCrossingSum, crossKept, crossDiff, crossBin, demean,
      listMean, diffInt, indicatorOf, rawMaxima, crossingIndices, segMaxVal, segArgmax,
      sortPairs, insertByVal, List.range_succ, List.findIdx_cons]
  · norm_num

/-- The sort is a permutation: ordered insert permutes to cons. -/
theorem insertByVal_perm (p : ℚ × ℕ) (l : List (ℚ × ℕ)) :
    (insertByVal p l).Perm (p :: l) := by
  induction l with
  | nil => simp [insertByVal]
  | cons q t ih =>
    rw [insertByVal]
    by_cases h : p.1 ≤ q.1
    · simp [h]
    · simp only [if_neg h]
      exact (List.Perm.cons q ih).trans (List.Perm.swap p q t)

/-- The sort is a permutation of its input. -/
theorem sortPairs_perm (l : List (ℚ × ℕ)) : (sortPairs l).Perm l := by
  induction l with
  | nil => simp [sortPairs]
  | cons p t ih =>
    rw [sortPairs]
    exact (insertByVal_perm p (sortPairs t)).trans (List.Perm.cons p ih)

/-- C8 counterexample: the constant signal `[1, 1, 1]` has fewer than two
crossings, so `find_maxima` takes the early empty return BEFORE the
threshold type check: a non-float threshold is accepted silently and the
call returns the empty result instead of failing with `InvalidArgument`. -/
theorem find_maxima_nonfloat_threshold_no_error :
    find_maxima [1, 1, 1] false (some PyThresh.pyOther) true = Except.ok [] := by
  norm_num [find_maxima, signedCrossingSum, crossKept, crossDiff, crossBin, demean,
    listMean, diffInt, indicatorOf]

/-- C8 (amended): once at least 2 crossings are counted (so the early
empty return is not taken), a non-float threshold fails with `TypeError`
(`InvalidArgument`), and a float threshold keeps exactly the maxima with
value `≥ threshold` (together with their indices): the thresholded result
is a permutation of the restriction of the unthresholded result to the
pairs with value `≥ threshold`, and every returned value is `≥` the
threshold. -/
theorem find_maxima_threshold_stage (x : List ℚ) (isLocal up : Bool)
    (h : 2 ≤ signedCrossingSum x up) :
    find_maxima x isLocal (some PyThresh.pyOther) up = Except.error FMErr.typeError ∧
    ∀ q : ℚ, ∃ r r₀,
      find_maxima x isLocal (some (PyThresh.pyFloat q)) up = Except.ok r ∧
      find_maxima x isLocal none up = Except.ok r₀ ∧
      r.Perm (r₀.filter fun p => decide (q ≤ p.1)) ∧
      ∀ p ∈ r, q ≤ p.1 := by
  have hlt : ¬ signedCrossingSum x up < 2 := not_lt.2 h
  refine ⟨by simp [find_maxima, hlt], fun q => ?_⟩
  refine ⟨sortPairs ((rawMaxima x isLocal up).filter (fun p => decide (q ≤ p.1))),
    sortPairs (rawMaxima x isLocal up), by simp [find_maxima, hlt], by simp [find_maxima, hlt],
    ?_, ?_⟩
  · exact (sortPairs_perm _).trans ((sortPairs_perm (rawMaxima x isLocal up)).symm.filter _)
  · intro p hp
    have hmem : p ∈ (rawMaxima x isLocal up).filter (fun p => decide (q ≤ p.1)) :=
      (sortPairs_perm _).mem_iff.mp hp
    simpa using (List.mem_filter.mp hmem).2

/-- C8 witness: `[-1, 1, -1, 1, -1]` has two up-crossings, so the signed
crossing sum is `2` and the threshold stage is reached. -/
theorem find_maxima_threshold_stage_witness :
    2 ≤ signedCrossingSum [-1, 1, -1, 1, -1] true ∧
      find_maxima [-1, 1, -1, 1, -1] false (some PyThresh.pyOther) true =
        Except.error FMErr.typeError :=
  ⟨by norm_num [signedCrossingSum, crossKept, crossDiff, crossBin, demean, listMean,
      diffInt, indicatorOf],
   (find_maxima_threshold_stage [-1, 1, -1, 1, -1] false true
     (by norm_num [signedCrossingSum, crossKept, crossDiff, crossBin, demean, listMean,
       diffInt, indicatorOf])).1⟩

/-! ## `smooth` (signal.py lines 13-96)

The input is a 1-D array (`List ℚ`), so the `x.ndim != 1` guard of
line 70 cannot fire in the embedding; the remaining guards are translated
in source order.  The window generators `np.hanning` / `np.hamming` /
`np.bartlett` / `np.blackman` are transcendental (cosine-based) external
library calls; they are modelled by the external generator parameter
`extWindow`, while the `rectangular` kernel (`np.ones`) is translated
exactly.  No claim observes a non-rectangular kernel value. -/

/-- `ValueError`s raised by `smooth`, and the `ValueError` `np.convolve`
raises for an unrecognized mode string. -/
inductive SmoothError
  | tooShort
  | unknownWindow
  | badMode
deriving DecidableEq, Repr

/-- The recognized window names of signal.py line 79. -/
def knownWindows : List String :=
  ["rectangular", "hanning", "hamming", "bartlett", "blackman"]

/-- `np.convolve(v, a, mode='full')`: `out[k] = Σ_j v[j] * a[k-j]`,
output length `N + M - 1`. -/
def convolveFull (v a : List ℚ) : List ℚ :=
  (List.range (v.length + a.length - 1)).map fun k =>
    ((List.range v.length).map fun j =>
      if j ≤ k then v.getD j 0 * a.getD (k - j) 0 else 0).sum

/-- `np.convolve(v, a, mode)`: `same` is the centered slice of `full` of
the larger length, `valid` the fully-overlapping slice; any other mode
string raises `ValueError` (`none` here). -/
def convolveMode (v a : List ℚ) (mode : String) : Option (List ℚ) :=
  let m := min v.length a.length
  let N := max v.length a.length
  let full := convolveFull v a
  if mode = "full" then some full
  else if mode = "same" then some ((full.drop ((m - 1) / 2)).take N)
  else if mode = "valid" then some ((full.drop (m - 1)).take (N - m + 1))
  else none

/-- `smooth(x, window_len, window, mode)` (signal.py lines 13-96).
Guards in source order: `x.size < window_len` raises `ValueError`;
`window_len < 3` returns the input unchanged; an unrecognized window name
raises `ValueError`.  Then the normalized kernel `w / w.sum()` is
convolved with the edge-padded signal: boundary reflection
`x[window_len-1:0:-1]`, `x[-1:-window_len:-1]` for `valid`, point
reflection `2*x[0] - x[window_len:1:-1]`, `2*x[-1] - x[-1:-window_len:-1]`
plus the `y[window_len-1:-window_len+1]` trim for the other modes. -/
def smooth (x : List ℚ) (window_len : ℕ) (window : String) (mode : String)
    (extWindow : String → ℕ → List ℚ) : Except SmoothError (List ℚ) :=
  if x.length < window_len then Except.error SmoothError.tooShort
  else if window_len < 3 then Except.ok x
  else if window ∈ knownWindows then
    let w := if window = "rectangular" then List.replicate window_len (1 : ℚ)
             else extWindow window window_len
    let kern := w.map (fun v => v / w.sum)
    if mode = "valid" then
      let s := ((x.drop 1).take (window_len - 1)).reverse ++ x ++
        ((x.drop (x.length - window_len + 1)).take (window_len - 1)).reverse
      match convolveMode kern s mode with
      | some y => Except.ok y
      | none => Except.error SmoothError.badMode
    else
      let s := (((x.drop 2).take (window_len - 1)).reverse.map
          (fun v => 2 * x.getD 0 0 - v)) ++ x ++
        (((x.drop (x.length - window_len + 1)).take (window_len - 1)).reverse.map
          (fun v => 2 * x.getD (x.length - 1) 0 - v))
      match convolveMode kern s mode with
      | some y => Except.ok ((y.drop (window_len - 1)).take (y.length - 2 * (window_len - 1)))
      | none => Except.error SmoothError.badMode
  else Except.error SmoothError.unknownWindow

/-- C7 counterexample: with `window_len = 2 < 3` (and enough samples) the
no-op return fires BEFORE the window-name validation, so the unknown
window name `"bogus"` does not raise: the input comes back unchanged. -/
theorem smooth_unknown_window_no_error :
    smooth [1, 2, 3, 4] 2 "bogus" "same" (fun _ _ => []) = Except.ok [1, 2, 3, 4] := by
  norm_num [smooth]

/-- C7 (amended): for a 1-D input with `x.size ≥ window_len` and
`window_len ≥ 3`, every window name outside
{rectangular, hanning, hamming, bartlett, blackman} fails with
`ValueError` (`InvalidArgument`); inputs with `x.size < window_len` also
fail with `ValueError`, while `window_len < 3` returns the input
unchanged before the name is examined. -/
theorem smooth_unknown_window_error (x : List ℚ) (window_len : ℕ) (window mode : String)
    (ext : String → ℕ → List ℚ) (hlen : window_len ≤ x.length) (h3 : 3 ≤ window_len)
    (hw : window ∉ knownWindows) :
    smooth x window_len window mode ext = Except.error SmoothError.unknownWindow := by
  rw [smooth, if_neg (not_lt.2 hlen), if_neg (not_lt.2 h3), if_neg hw]

/-- C7 witness: a 3-sample signal, `window_len = 3`, unknown name. -/
theorem smooth_unknown_window_error_witness :
    (3 ≤ ([1, 2, 3] : List ℚ).length ∧ "bogus" ∉ knownWindows) ∧
      smooth [1, 2, 3] 3 "bogus" "same" (fun _ _ => []) =
        Except.error SmoothError.unknownWindow :=
  ⟨⟨by norm_num, by decide⟩,
   smooth_unknown_window_error [1, 2, 3] 3 "bogus" "same" (fun _ _ => [])
     (by norm_num) (by norm_num) (by decide)⟩

/-- C10: in the regime `x.size ≥ window_len` and `window_len < 3`, the
source returns the input unchanged for EVERY window name and mode — the
window-name validation of line 79 is never reached, so even an
unrecognized name raises nothing. -/
theorem smooth_small_window_noop (x : List ℚ) (window_len : ℕ) (window mode : String)
    (ext : String → ℕ → List ℚ) (hlen : window_len ≤ x.length) (h3 : window_len < 3) :
    smooth x window_len window mode ext = Except.ok x := by
  rw [smooth, if_neg (not_lt.2 hlen), if_pos h3]

/-- C10 witness: `window_len = 2`, unknown window name, unknown mode. -/
theorem smooth_small_window_noop_witness :
    ((2 : ℕ) ≤ ([5, 7] : List ℚ).length ∧ (2 : ℕ) < 3) ∧
      smooth [5, 7] 2 "nonsense" "weird" (fun _ _ => []) = Except.ok [5, 7] :=
  ⟨⟨by norm_num, by norm_num⟩,
   smooth_small_window_noop [5, 7] 2 "nonsense" "weird" (fun _ _ => [])
     (by norm_num) (by norm_num)⟩

/-! ## `taper` (signal.py lines 99-176)

The `tukey`, `cosine` and `kaiser` window shapes are transcendental
(cosine / Bessel values); they and any other named numpy window are
modelled by the external generator parameter `extWindow`.  The
`rectangular` branch (`np.ones`) and the correction factor
`np.sum(w**2) / window_len` are translated exactly.  For an empty signal
the float division is `0.0/0`, i.e. NaN — modelled by `none`. -/

/-- `window.lower()`: ASCII lowercasing of the window name. -/
def pyLower (s : String) : String := ⟨s.data.map Char.toLower⟩

/-- `taper(x, window, alpha)` (signal.py lines 99-176): lowercases the
window name, builds the window, multiplies elementwise, and returns the
tapered signal with the correction factor `sum(w²)/length`. -/
def taper (x : List ℚ) (window : String) (alpha : ℚ)
    (extWindow : String → ℚ → ℕ → List ℚ) : List ℚ × Option ℚ :=
  let win := pyLower window
  let n := x.length
  let w := if win = "rectangular" then List.replicate n (1 : ℚ) else extWindow win alpha n
  let y := List.zipWith (fun a b => a * b) x w
  (y, if n = 0 then none else some ((w.map fun v => v ^ 2).sum / n))

/-- C9 counterexample: for the empty signal the correction factor is the
float division `0.0/0 = NaN` (`none`), not `1.0`. -/
theorem taper_empty_not_one :
    (taper ([] : List ℚ) "rectangular" 0 (fun _ _ _ => [])).2 = none ∧
      (none : Option ℚ) ≠ some 1 := by
  constructor
  · rfl
  · simp

/-- Multiplying elementwise by a same-length array of ones is the
identity. -/
theorem zipWith_mul_replicate_one (x : List ℚ) :
    List.zipWith (fun a b => a * b) x (List.replicate x.length (1 : ℚ)) = x := by
  induction x with
  | nil => rfl
  | cons a t ih => simp [List.replicate_succ, ih]

/-- C9 (amended): for every NONEMPTY signal, `taper` with the rectangular
window returns the signal unchanged and the correction factor
`sum(w²)/length` evaluates to exactly `1.0`. -/
theorem taper_rectangular (x : List ℚ) (alpha : ℚ) (ext : String → ℚ → ℕ → List ℚ)
    (h : x ≠ []) : taper x "rectangular" alpha ext = (x, some 1) := by
  have hlow : pyLower "rectangular" = "rectangular" := by decide
  have hn : (x.length : ℚ) ≠ 0 := by
    exact_mod_cast Nat.cast_ne_zero.mpr (List.length_pos.mpr h).ne'
  have hlen : x.length ≠ 0 := (List.length_pos.mpr h).ne'
  simp only [taper, hlow, if_pos rfl, if_neg hlen, zipWith_mul_replicate_one]
  norm_num [List.map_replicate, List.sum_replicate, div_self hn, zipWith_mul_replicate_one]

/-- C9 witness: a two-sample signal. -/
theorem taper_rectangular_witness :
    ([3, 4] : List ℚ) ≠ [] ∧
      taper [3, 4] "rectangular" (1 / 100) (fun _ _ _ => []) = ([3, 4], some 1) :=
  ⟨by simp, taper_rectangular [3, 4] (1 / 100) (fun _ _ _ => []) (by simp)⟩

/-! ## `autocorrelation` (signal.py lines 425-475) -/

/-- Python 3 `round(q, 3)`: round to 3 decimal places, ties to even
(stated on the exact rational value; the float representation error of
the argument is not modelled). -/
def pyRound3 (q : ℚ) : ℚ :=
  let y := 1000 * q
  -- fractional part below / above / equal to 1/2, phrased as 2y ≶ 2⌊y⌋+1
  (if 2 * y < 2 * (⌊y⌋ : ℚ) + 1 then (⌊y⌋ : ℚ)
   else if 2 * (⌊y⌋ : ℚ) + 1 < 2 * y then (⌊y⌋ : ℚ) + 1
   else if ⌊y⌋ % 2 = 0 then (⌊y⌋ : ℚ) else (⌊y⌋ : ℚ) + 1) / 1000

/-- `autocorrelation(series)` (signal.py lines 425-475):
`c0 = sum((data-mean)²)/n`, and for each lag `h` in `np.arange(n)` —
which is `0, 1, ..., n-1`, so lag `0` IS included despite the
`# Avoiding lag 0 calculation` comment — the coefficient
`round(sum((data[:n-h]-mean)*(data[h:]-mean))/n/c0, 3)`.  The Python
`map` object is a finite lazy sequence; it is returned here as the list
of its values. -/
def autocorrelation (series : List ℚ) : List ℚ :=
  let n := series.length
  let mean := series.sum / (n : ℚ)
  let c0 := ((series.map fun v => (v - mean) ^ 2).sum) / (n : ℚ)
  let r := fun (h : ℕ) => pyRound3
    ((List.zipWith (fun a b => a * b)
      ((series.take (n - h)).map (fun v => v - mean))
      ((series.drop h).map (fun v => v - mean))).sum / (n : ℚ) / c0)
  (List.range n).map r

/-- C4: `autocorrelation` iterates the lag over `np.arange(n) = 0..n-1`,
so it yields `n` coefficients INCLUDING lag `0` (whose value is `1`), not
`n-1` coefficients for the lags `[1, n)`: on `[1, 2, 3]` (mean `2`,
`c0 = 2/3`, nonzero variance) it yields the three coefficients
`[1, 0, -0.5]`, where `0` and `-0.5` are the claimed lag-1 and lag-2
values and the leading `1` is the extra lag-0 coefficient. -/
theorem autocorrelation_includes_lag_zero :
    autocorrelation [1, 2, 3] = [1, 0, -(1 / 2)] ∧
      (autocorrelation [1, 2, 3]).length ≠ [1, 2, 3].length - 1 := by
  constructor
  · norm_num [autocorrelation, pyRound3, List.range_succ, Int.fract]
  · norm_num [autocorrelation]

/-! ## FFT filters (signal.py lines 179-422)

All five filters share the skeleton: `nfft = 2^ceil(log2(n))`, transform,
binary mask over the frequency bins, multiply, inverse transform,
truncate to `n` samples.  Real input goes through `scipy.fftpack.rfft` /
`irfft` (a packed real format of the same transform), other input through
the general complex `fft` / `ifft`; the embedding models the complex
branch.  Complex samples are pairs of exact rationals; the DFT twiddle
factors `exp(-2πi·e/nfft)` are Gaussian rationals exactly when `nfft`
divides `4e` — in particular for every `e` when `nfft ∈ {1, 2, 4}`, the
transform sizes of all concrete instances proved here; other twiddles are
irrational and are mapped to `0`, which no theorem below depends on (the
length theorems are value-independent and all evaluations use
`nfft ∈ {1, 4}`). -/

/-- A complex number with rational real and imaginary parts. -/
structure CplxQ where
  re : ℚ
  im : ℚ
deriving DecidableEq, Repr

instance : Zero CplxQ := ⟨⟨0, 0⟩⟩
instance : Add CplxQ := ⟨fun a b => ⟨a.re + b.re, a.im + b.im⟩⟩
instance : Mul CplxQ := ⟨fun a b => ⟨a.re * b.re - a.im * b.im, a.re * b.im + a.im * b.re⟩⟩

/-- Scaling a complex sample by a rational factor. -/
def CplxQ.scale (c : ℚ) (a : CplxQ) : CplxQ := ⟨c * a.re, c * a.im⟩

/-- Squared magnitude `|a|²` (the magnitude itself is irrational). -/
def CplxQ.absSq (a : CplxQ) : ℚ := a.re ^ 2 + a.im ^ 2

theorem CplxQ.zero_def : (0 : CplxQ) = ⟨0, 0⟩ := rfl

theorem CplxQ.re_zero : (0 : CplxQ).re = 0 := rfl

theorem CplxQ.im_zero : (0 : CplxQ).im = 0 := rfl

theorem CplxQ.add_def (a b : CplxQ) : a + b = ⟨a.re + b.re, a.im + b.im⟩ := rfl

theorem CplxQ.mul_def (a b : CplxQ) :
    a * b = ⟨a.re * b.re - a.im * b.im, a.re * b.im + a.im * b.re⟩ := rfl

/-- `exp(-2πi·e/nfft)`, exact as a Gaussian rational when `nfft ∣ 4e`
(quarter turns); `0` otherwise (irrational twiddle, outside the exact
domain of the embedding). -/
def twiddleNeg (nfft : ℕ) (e : ℕ) : CplxQ :=
  if (4 * (e : ℤ)) % (nfft : ℤ) = 0 then
    if ((4 * (e : ℤ)) / (nfft : ℤ)) % 4 = 0 then ⟨1, 0⟩
    else if ((4 * (e : ℤ)) / (nfft : ℤ)) % 4 = 1 then ⟨0, -1⟩
    else if ((4 * (e : ℤ)) / (nfft : ℤ)) % 4 = 2 then ⟨-1, 0⟩
    else ⟨0, 1⟩
  else 0

/-- `exp(+2πi·e/nfft)`: the conjugate twiddle, used by the inverse
transform. -/
def twiddlePos (nfft : ℕ) (e : ℕ) : CplxQ :=
  ⟨(twiddleNeg nfft e).re, -(twiddleNeg nfft e).im⟩

/-- `scipy.fftpack.fft(x, nfft)`: zero-pads (or truncates) `x` to `nfft`
samples and applies the DFT `X[j] = Σ_k x[k]·exp(-2πi·jk/nfft)`. -/
def fft (x : List CplxQ) (nfft : ℕ) : List CplxQ :=
  (List.range nfft).map fun j =>
    ((List.range nfft).map fun k => x.getD k 0 * twiddleNeg nfft (j * k)).sum

/-- `scipy.fftpack.ifft(x, nfft)`: the inverse DFT
`x[j] = (1/nfft)·Σ_k X[k]·exp(+2πi·jk/nfft)`. -/
def ifft (x : List CplxQ) (nfft : ℕ) : List CplxQ :=
  (List.range nfft).map fun j =>
    CplxQ.scale (1 / (nfft : ℚ))
      (((List.range nfft).map fun k => x.getD k 0 * twiddlePos nfft (j * k)).sum)

/-- `sys.float_info.epsilon = 2⁻⁵²`: the nudge applied to a cutoff
frequency of exactly `0` (signal.py lines 207-208, 309-312, 360-363). -/
def floatEps : ℚ := 1 / 2 ^ 52

/-- `int(pow(2, np.ceil(np.log(n)/np.log(2))))`: the smallest power of two
`≥ n` (the float logarithms can only overshoot to the next power for
astronomically large `n`; `Nat.clog` is the exact ceiling log). -/
def nfftOf (n : ℕ) : ℕ := 2 ^ Nat.clog 2 n

/-- `scipy.fftpack.fftfreq(nfft, d)[k]`:
`[0, 1, ..., ⌈nfft/2⌉-1, -⌊nfft/2⌋, ..., -1] / (nfft·d)`. -/
def fftfreqVal (nfft : ℕ) (dt : ℚ) (k : ℕ) : ℚ :=
  (if k < (nfft + 1) / 2 then (k : ℤ) else (k : ℤ) - nfft) / ((nfft : ℚ) * dt)

/-- `scipy.fftpack.rfftfreq(nfft, d)[k] = ⌊(k+1)/2⌋ / (nfft·d)`, i.e.
`[0, 1, 1, 2, 2, ...] / (nfft·d)` — the bin frequencies of the packed
real transform used by the real branch of every filter. -/
def rfftfreqVal (nfft : ℕ) (dt : ℚ) (k : ℕ) : ℚ :=
  (((k + 1) / 2 : ℕ) : ℚ) / ((nfft : ℚ) * dt)

/-- `lowpass(x, dt, fc)` (signal.py lines 179-226), complex branch:
mask `h[|f| <= fc] = 1`, zero elsewhere. -/
def lowpass (x : List CplxQ) (dt fc : ℚ) : List CplxQ :=
  let fc := if fc = 0 then floatEps else fc
  let n := x.length
  let nfft := nfftOf n
  let fa := fft x nfft
  let h := (List.range nfft).map fun k => if |fftfreqVal nfft dt k| ≤ fc then (1 : ℚ) else 0
  (ifft (List.zipWith (fun a c => CplxQ.scale c a) fa h) nfft).take n

/-- `highpass(x, dt, fc)` (signal.py lines 229-276), complex branch:
mask `h[|f| >= fc] = 1`. -/
def highpass (x : List CplxQ) (dt fc : ℚ) : List CplxQ :=
  let fc := if fc = 0 then floatEps else fc
  let n := x.length
  let nfft := nfftOf n
  let fa := fft x nfft
  let h := (List.range nfft).map fun k => if fc ≤ |fftfreqVal nfft dt k| then (1 : ℚ) else 0
  (ifft (List.zipWith (fun a c => CplxQ.scale c a) fa h) nfft).take n

/-- `bandpass(x, dt, flow, fupp)` (signal.py lines 279-327), complex
branch: mask `h[(|f| >= flow) & (|f| <= fupp)] = 1`. -/
def bandpass (x : List CplxQ) (dt flow fupp : ℚ) : List CplxQ :=
  let flow := if flow = 0 then floatEps else flow
  let fupp := if fupp = 0 then floatEps else fupp
  let n := x.length
  let nfft := nfftOf n
  let fa := fft x nfft
  let h := (List.range nfft).map fun k =>
    if flow ≤ |fftfreqVal nfft dt k| ∧ |fftfreqVal nfft dt k| ≤ fupp then (1 : ℚ) else 0
  (ifft (List.zipWith (fun a c => CplxQ.scale c a) fa h) nfft).take n

/-- `bandblock(x, dt, flow, fupp)` (signal.py lines 330-378), complex
branch: mask initialized to ones, `h[(|f| >= flow) & (|f| <= fupp)] = 0`. -/
def bandblock (x : List CplxQ) (dt flow fupp : ℚ) : List CplxQ :=
  let flow := if flow = 0 then floatEps else flow
  let fupp := if fupp = 0 then floatEps else fupp
  let n := x.length
  let nfft := nfftOf n
  let fa := fft x nfft
  let h := (List.range nfft).map fun k =>
    if flow ≤ |fftfreqVal nfft dt k| ∧ |fftfreqVal nfft dt k| ≤ fupp then (0 : ℚ) else 1
  (ifft (List.zipWith (fun a c => CplxQ.scale c a) fa h) nfft).take n

/-- `threshold(x, (lth, uth))` (signal.py lines 381-422), complex branch:
mask on transform amplitudes, `lth·max|fa| < |fa| <= uth·max|fa|`.  The
amplitude comparisons are stated on squared magnitudes (order-equivalent
for the nonnegative fractional thresholds the docstring specifies, and
irrelevant to the length property proved about this function). -/
def threshold (x : List CplxQ) (lth uth : ℚ) : List CplxQ :=
  let n := x.length
  let nfft := nfftOf n
  let fa := fft x nfft
  let maxSq := (fa.map CplxQ.absSq).foldr max 0
  let h := (List.range nfft).map fun k =>
    if lth ^ 2 * maxSq < CplxQ.absSq (fa.getD k 0) ∧
        CplxQ.absSq (fa.getD k 0) ≤ uth ^ 2 * maxSq then (1 : ℚ) else 0
  (ifft (List.zipWith (fun a c => CplxQ.scale c a) fa h) nfft).take n

/-- The real-branch `bandpass` frequency mask (signal.py lines 317-318):
`h = np.zeros(...); h[(|f| >= flow) & (|f| <= fupp)] = 1` over the
`rfftfreq` bins, with the zero-frequency nudge of lines 309-312. -/
def bandpassMaskReal (dt flow fupp : ℚ) (nfft k : ℕ) : ℚ :=
  let flow := if flow = 0 then floatEps else flow
  let fupp := if fupp = 0 then floatEps else fupp
  if flow ≤ |rfftfreqVal nfft dt k| ∧ |rfftfreqVal nfft dt k| ≤ fupp then 1 else 0

/-- The real-branch `bandblock` frequency mask (signal.py lines 368-369):
`h = np.ones(...); h[(|f| >= flow) & (|f| <= fupp)] = 0` over the same
bins with the same nudge. -/
def bandblockMaskReal (dt flow fupp : ℚ) (nfft k : ℕ) : ℚ :=
  let flow := if flow = 0 then floatEps else flow
  let fupp := if fupp = 0 then floatEps else fupp
  if flow ≤ |rfftfreqVal nfft dt k| ∧ |rfftfreqVal nfft dt k| ≤ fupp then 0 else 1

/-- C5: for every time step, band edges and frequency bin, the `bandpass`
and `bandblock` masks are exact complements summing to the all-ones mask,
so the two masked spectra sum bin-by-bin to the unmasked spectrum — the
element-wise sum of the two filter outputs reconstructs the input up to
transform round-off.  The second conjunct exhibits the reconstruction
exactly on a concrete signal: on `[1, 2, 3]` (`nfft = 4`, where the
embedded transform is the exact DFT) the element-wise sum of
`bandpass(x, 1, 1/8, 3/8)` and `bandblock(x, 1, 1/8, 3/8)` is exactly the
original three samples. -/
theorem bandpass_bandblock_complementary (dt flow fupp : ℚ) (nfft k : ℕ) (a : ℚ) :
    (bandpassMaskReal dt flow fupp nfft k + bandblockMaskReal dt flow fupp nfft k = 1 ∧
      a * bandpassMaskReal dt flow fupp nfft k + a * bandblockMaskReal dt flow fupp nfft k = a) ∧
    List.zipWith (fun u v => u + v)
        (bandpass [⟨1, 0⟩, ⟨2, 0⟩, ⟨3, 0⟩] 1 (1 / 8) (3 / 8))
        (bandblock [⟨1, 0⟩, ⟨2, 0⟩, ⟨3, 0⟩] 1 (1 / 8) (3 / 8)) =
      [⟨1, 0⟩, ⟨2, 0⟩, ⟨3, 0⟩] := by
  constructor
  · rw [bandpassMaskReal, bandblockMaskReal]
    by_cases hc : (if flow = 0 then floatEps else flow) ≤ |rfftfreqVal nfft dt k| ∧
        |rfftfreqVal nfft dt k| ≤ if fupp = 0 then floatEps else fupp
    · simp [hc]
    · simp [hc]
  · have h4 : |(1 : ℚ) / 4| = 1 / 4 := abs_of_nonneg (by norm_num)
    have h2 : |(1 : ℚ) / 2| = 1 / 2 := abs_of_nonneg (by norm_num)
    norm_num [bandpass, bandblock, nfftOf, Nat.clog, fft, ifft, twiddleNeg, twiddlePos,
      fftfreqVal, floatEps, CplxQ.scale, CplxQ.add_def, CplxQ.mul_def, CplxQ.re_zero,
      CplxQ.im_zero, List.range_succ, abs_neg, h4, h2, Int.toNat_ofNat, Int.toNat_zero,
      Int.toNat_one]

/-- The inverse transform always produces `nfft` samples. -/
theorem ifft_length (l : List CplxQ) (m : ℕ) : (ifft l m).length = m := by
  simp [ifft]

/-- Truncating the `nfftOf n`-sample inverse transform to `n` samples
yields exactly `n` samples, since `n ≤ 2^⌈log₂ n⌉`. -/
theorem take_ifft_length (l : List CplxQ) (n : ℕ) :
    ((ifft l (nfftOf n)).take n).length = n := by
  rw [List.length_take, ifft_length]
  exact min_eq_left (Nat.le_pow_clog one_lt_two n)

/-- C6 counterexample: on the complex-valued one-sample signal `[i]`
(`nfft = 1`, where the embedded transform is the exact — trivial — DFT,
and the low-pass mask passes the only bin), `lowpass` returns `[i]`: the
entry has imaginary part `1 ≠ 0`, so the complex branch does NOT return a
real-valued array. -/
theorem lowpass_complex_not_real :
    lowpass [⟨0, 1⟩] 1 1 = [⟨0, 1⟩] ∧ (CplxQ.mk 0 1).im ≠ 0 := by
  constructor
  · have hr : List.range 1 = [0] := rfl
    norm_num [lowpass, nfftOf, Nat.clog, fft, ifft, twiddleNeg, twiddlePos, fftfreqVal,
      floatEps, CplxQ.scale, CplxQ.add_def, CplxQ.mul_def, CplxQ.re_zero, CplxQ.im_zero,
      hr]
  · norm_num

/-- C6 (amended): every filter returns an array whose length equals the
original sample count (for any nonempty input; the code errors on an
empty one); entries are guaranteed real-valued only for real-valued
input, which the code routes through the packed real transform — a
complex-valued input keeps complex entries, as the counterexample shows. -/
theorem filters_preserve_length (x : List CplxQ) (dt fc flow fupp lth uth : ℚ)
    (_h : x ≠ []) :
    (lowpass x dt fc).length = x.length ∧
    (highpass x dt fc).length = x.length ∧
    (bandpass x dt flow fupp).length = x.length ∧
    (bandblock x dt flow fupp).length = x.length ∧
    (threshold x lth uth).length = x.length := by
  refine ⟨?_, ?_, ?_, ?_, ?_⟩
  · simp only [lowpass]; exact take_ifft_length _ _
  · simp only [highpass]; exact take_ifft_length _ _
  · simp only [bandpass]; exact take_ifft_length _ _
  · simp only [bandblock]; exact take_ifft_length _ _
  · simp only [threshold]; exact take_ifft_length _ _

/-- C6 witness: a two-sample complex signal. -/
theorem filters_preserve_length_witness :
    ([⟨1, 2⟩, ⟨3, 4⟩] : List CplxQ) ≠ [] ∧
      (lowpass [⟨1, 2⟩, ⟨3, 4⟩] 1 (1 / 2)).length = 2 :=
  ⟨by simp,
   (filters_preserve_length [⟨1, 2⟩, ⟨3, 4⟩] 1 (1 / 2) (1 / 4) (1 / 2) (1 / 10) 1
     (by simp)).1⟩

end QatsSignal
